import Mathlib

/-!
Verification development for the devgen-cli repository.

The CLI layer (playbook `run`/`validate` commands, the `fileExists`
helper, the MCP registry `toggleServer` operation) is embedded directly
from `src/main.go` and `src/src/main.go`.  The playbook execution engine
(data model, condition and dependency resolver, step executor, scheduler
state machine) is described by the specification but its source is not
present under `src/`; those parts are modelled from the spec, with each
such definition carrying a doc comment starting `Modelled from the
spec:`.
-/

namespace DevGen

/-- Modelled from the spec: step status enumeration
`{pending, running, completed, failed, skipped}` (spec section 3). -/
inductive Status where
  | pending
  | running
  | completed
  | failed
  | skipped
deriving DecidableEq, Repr

/-- Modelled from the spec: a step condition is either the literal
`start` or a reference `<step>-completed` / `<step>-failed`
(spec section 3, "Condition"). -/
inductive Cond where
  | start
  | completedOf (step : String)
  | failedOf (step : String)
deriving DecidableEq, Repr

/-- Modelled from the spec: a step of a playbook branch (spec section 3,
"Step"): name, agent identifier, action description, condition, optional
list of step names it depends on, timeout duration and maximum retry
count.  The mutable status lives in the run's status map, not here. -/
structure Step where
  name : String
  agent : String
  action : String
  condition : Cond
  dependsOn : List String
  timeout : Nat
  retries : Nat
deriving DecidableEq, Repr

/-- Modelled from the spec: a branch (spec section 3, "Branch"): name,
`parallel` flag, optional prerequisite branch names, ordered steps. -/
structure Branch where
  name : String
  parallel : Bool
  prerequisites : List String
  steps : List Step
deriving DecidableEq, Repr

/-- Modelled from the spec: a playbook (spec section 3, "Playbook"):
name, version, variables (field `vars`, since `variables` is reserved in
Lean), ordered branches. -/
structure Playbook where
  name : String
  version : String
  vars : List (String × String)
  branches : List Branch
deriving DecidableEq, Repr

/-- Modelled from the spec: the map from step identity
(branch name, step name) to current Status (spec section 3,
"ExecutionState"). -/
def StatusMap : Type := String → String → Status

/-- All (branch, step) identities of a playbook in declaration order:
branch declaration order first, then step declaration order. -/
def allStepIds (pb : Playbook) : List (String × String) :=
  pb.branches.flatMap (fun br => br.steps.map (fun stp => (br.name, stp.name)))

/-- First branch with the given name, in declaration order. -/
def findBranch (pb : Playbook) (b : String) : Option Branch :=
  pb.branches.find? (fun br => decide (br.name = b))

/-- The step called `n` inside the branch called `b`, if any. -/
def findStepIn (pb : Playbook) (b n : String) : Option Step :=
  (findBranch pb b).bind (fun br => br.steps.find? (fun s => decide (s.name = n)))

/-- Modelled from the spec: conditions and dependencies reference steps
by bare step name; a reference resolves to the first step with that name
in declaration order. -/
def resolveStepName (pb : Playbook) (nm : String) : Option (String × String) :=
  pb.branches.findSome? (fun br =>
    (br.steps.find? (fun s => decide (s.name = nm))).map (fun s => (br.name, s.name)))

/-- Status of the step a name reference resolves to, if it resolves. -/
def statusOfName (pb : Playbook) (st : StatusMap) (nm : String) : Option Status :=
  (resolveStepName pb nm).map (fun p => st p.1 p.2)

/-- Modelled from the spec: condition evaluation (spec section 3):
`start` is always satisfied once the owning branch is eligible;
`<step>-completed` / `<step>-failed` are satisfied exactly when the
referenced step currently has that terminal status. -/
def condSatisfiedB (pb : Playbook) (st : StatusMap) : Cond → Bool
  | .start => true
  | .completedOf nm => decide (statusOfName pb st nm = some .completed)
  | .failedOf nm => decide (statusOfName pb st nm = some .failed)

/-- Modelled from the spec: a branch is fully completed when every one of
its steps has status `completed`. -/
def branchCompletedB (pb : Playbook) (st : StatusMap) (bn : String) : Bool :=
  match findBranch pb bn with
  | some br => br.steps.all (fun s => decide (st br.name s.name = .completed))
  | none => false

/-- Modelled from the spec: all prerequisite branches of a branch are
themselves fully completed (spec section 4.1). -/
def prereqsCompletedB (pb : Playbook) (st : StatusMap) (br : Branch) : Bool :=
  br.prerequisites.all (branchCompletedB pb st)

/-- Modelled from the spec: a step is ready when its Status is `pending`
and its Condition currently evaluates to satisfied (spec section 4.1). -/
def stepReadyB (pb : Playbook) (st : StatusMap) (br : Branch) (stp : Step) : Bool :=
  decide (st br.name stp.name = .pending) && condSatisfiedB pb st stp.condition

/-- Modelled from the spec: `getNextExecutableSteps()` (spec section
4.1): the ordered list of (branch, step) identities whose Condition is
satisfied, whose Status is `pending`, and whose owning branch's
prerequisite branches are all fully completed, ordered by branch
declaration order then step declaration order. -/
def getNextExecutableSteps (pb : Playbook) (st : StatusMap) : List (String × String) :=
  pb.branches.flatMap (fun br =>
    if prereqsCompletedB pb st br then
      (br.steps.filter (stepReadyB pb st br)).map (fun stp => (br.name, stp.name))
    else [])

/-- Modelled from the spec: a condition can never become true because
its referenced step failed (spec section 3, "Status": the source of the
`skipped` status). -/
def condHopelessB (pb : Playbook) (st : StatusMap) : Cond → Bool
  | .completedOf nm => decide (statusOfName pb st nm = some .failed)
  | _ => false

/-- Modelled from the spec: a step's dependency situation is hopeless
when one of the steps it depends on has status `failed`, or its
condition references the completion of a step that has failed (spec
sections 3 and 4.1: "skipped is reached when a step's condition can
never become true because its referenced step failed"). -/
def depFailedB (pb : Playbook) (st : StatusMap) (stp : Step) : Bool :=
  stp.dependsOn.any (fun d => decide (statusOfName pb st d = some .failed)) ||
  condHopelessB pb st stp.condition

/-- Modelled from the spec: the transition applied before the ready set
is computed on each resolver pass (spec section 4.1 edge case): every
`pending` step one of whose dependencies is `failed` transitions to
`skipped`. -/
def markSkipped (pb : Playbook) (st : StatusMap) : StatusMap := fun b n =>
  match findStepIn pb b n with
  | some stp => if st b n = .pending ∧ depFailedB pb st stp = true then .skipped else st b n
  | none => st b n

/-- Modelled from the spec: one resolver pass — apply the skip
transition, then compute the ready set on the resulting status map
(spec section 4.1). -/
def resolverPass (pb : Playbook) (st : StatusMap) : StatusMap × List (String × String) :=
  (markSkipped pb st, getNextExecutableSteps pb (markSkipped pb st))

/-- Names of all steps of a playbook in declaration order. -/
def stepNames (pb : Playbook) : List String :=
  pb.branches.flatMap (fun br => br.steps.map (fun stp => stp.name))

/-- Dependencies of the step a name resolves to (empty for unknown names). -/
def directDeps (pb : Playbook) (nm : String) : List String :=
  match pb.branches.findSome? (fun br => br.steps.find? (fun s => decide (s.name = nm))) with
  | some stp => stp.dependsOn
  | none => []

/-- One expansion of a dependency frontier by direct dependencies. -/
def depExpand (pb : Playbook) (l : List String) : List String :=
  (l ++ l.flatMap (directDeps pb)).dedup

/-- Bounded iteration helper for dependency reachability. -/
def depReach (pb : Playbook) : Nat → List String → List String
  | 0, l => l
  | n + 1, l => depReach pb n (depExpand pb l)

/-- Step names reachable from `nm` through one or more dependency edges. -/
def reachableDeps (pb : Playbook) (nm : String) : List String :=
  depReach pb (stepNames pb).length (directDeps pb nm)

/-- The step dependency graph of a playbook is acyclic: no step name
reaches itself through a nonempty chain of dependency edges. -/
def depsAcyclic (pb : Playbook) : Bool :=
  (stepNames pb).all (fun nm => !(reachableDeps pb nm).contains nm)

/-! ### CLI layer, embedded from src/main.go -/

/-- Metadata of a file as seen by the playbook commands: whether the
path is a directory, and the parsed playbook its contents hold (if they
parse).  The contents are carried only to express that the commands in
src/main.go never look at them. -/
structure FileInfo where
  isDir : Bool
  content : Option Playbook
deriving DecidableEq, Repr

/-- Result of an `os.Stat` call: the path does not exist, the call fails
with some other error (for example a permission error), or it succeeds
with the file's metadata. -/
inductive StatRes where
  | notExist
  | errOther
  | ok (info : FileInfo)
deriving DecidableEq, Repr

/-- A file system: what `os.Stat` answers for each path. -/
def FS : Type := String → StatRes

/-- Embedded from src/main.go lines 400-406.  `fileExists` calls
`os.Stat`; if `os.IsNotExist(err)` it returns false; otherwise it
returns `!info.IsDir()`.  When `os.Stat` fails with an error other than
not-exist, `info` is nil and `info.IsDir()` dereferences a nil pointer:
that panic is modelled as `none`. -/
def fileExists (fs : FS) (filename : String) : Option Bool :=
  match fs filename with
  | .notExist => some false
  | .errOther => none
  | .ok info => some (!info.isDir)

/-- What a playbook command run produced when it succeeds: the lines it
printed (decorative emoji prefixes omitted) and how many playbook steps
it actually executed. -/
structure RunReport where
  printed : List String
  stepsExecuted : Nat
deriving DecidableEq, Repr

/-- The fixed success output of `runPlaybook` in src/main.go lines
289-292: three printed lines and zero steps executed. -/
def runOkReport (filename : String) : RunReport :=
  { printed := ["Running playbook: " ++ filename,
                "Loading playbook configuration...",
                "Playbook executed successfully!"],
    stepsExecuted := 0 }

/-- Embedded from src/main.go lines 284-293.  `runPlaybook` returns an
error if `fileExists` is false; otherwise it prints three fixed lines
and returns nil without reading, parsing or executing the file.  `none`
models the panic propagated from `fileExists`. -/
def runPlaybook (fs : FS) (filename : String) : Option (Except String RunReport) :=
  match fileExists fs filename with
  | none => none
  | some false => some (.error ("playbook file not found: " ++ filename))
  | some true => some (.ok (runOkReport filename))

/-- Embedded from src/main.go lines 295-302.  `validatePlaybookCmd`
returns an error if `fileExists` is false; otherwise it prints a success
line and returns nil without reading the file. -/
def validatePlaybookCmd (fs : FS) (filename : String) : Option (Except String Unit) :=
  match fileExists fs filename with
  | none => none
  | some false => some (.error ("playbook file not found: " ++ filename))
  | some true => some (.ok ())

/-- Two stat results have the same shape when they agree on existence
and directory-ness; the file contents may differ arbitrarily. -/
def sameShape : StatRes → StatRes → Prop
  | .notExist, .notExist => True
  | .errOther, .errOther => True
  | .ok i1, .ok i2 => i1.isDir = i2.isDir
  | _, _ => False

/-- The path names an existing regular file (exists and is not a
directory). -/
def regularFile (fs : FS) (filename : String) : Prop :=
  ∃ info, fs filename = .ok info ∧ info.isDir = false

/-! ### Step executor, modelled from the spec (section 4.2) -/

/-- Modelled from the spec: structured outcome tags carried by log
events (spec section 6). -/
inductive Outcome where
  | started
  | retrying
  | completed
  | failed
  | skipped
  | timeout
deriving DecidableEq, Repr

/-- Modelled from the spec: a log event carries the branch/step
identity, the attempt number and an outcome tag (spec sections 4.2
and 6); exactly one event is emitted per attempt. -/
structure Event where
  branch : String
  step : String
  attempt : Nat
  outcome : Outcome
deriving DecidableEq, Repr

/-- Modelled from the spec: the attempt loop of the executor (spec
section 4.2).  `invoke k` is the agent invocation for attempt `k`;
the second argument is the remaining retry budget.  Returns the terminal
status, the number of attempts made, and one log event per attempt. -/
def attemptLoop (invoke : Nat → Bool) (b s : String) : Nat → Nat → Status × Nat × List Event
  | k, 0 =>
      if invoke k then (.completed, 1, [⟨b, s, k, .completed⟩])
      else (.failed, 1, [⟨b, s, k, .failed⟩])
  | k, budget + 1 =>
      if invoke k then (.completed, 1, [⟨b, s, k, .completed⟩])
      else
        let r := attemptLoop invoke b s (k + 1) budget
        (r.1, r.2.1 + 1, ⟨b, s, k, .retrying⟩ :: r.2.2)

/-- Modelled from the spec: `executeStep` runs the agent with 1 initial
attempt plus up to `retries` retries (spec section 4.2). -/
def executeStep (invoke : Nat → Bool) (b s : String) (retries : Nat) : Status × Nat × List Event :=
  attemptLoop invoke b s 0 retries

/-! ### Scheduler state machine, modelled from the spec (sections 4.3-4.4) -/

/-- Modelled from the spec: overall run phase
`{idle, running, paused, completed, failed}` (spec section 3). -/
inductive Phase where
  | idle
  | running
  | paused
  | completed
  | failed
deriving DecidableEq, Repr

/-- Modelled from the spec: the ExecutionState of one run (spec section
3): run phase, the step status map, the event log, and the counters of
completed and failed steps. -/
structure EngineState where
  phase : Phase
  statuses : StatusMap
  log : List Event
  completedCount : Nat
  failedCount : Nat

/-- An agent registry: maps an agent identifier to its invocation
behavior per attempt number (spec section 4.2: the mapping from agent
key to behavior is an external collaborator). -/
def AgentMap : Type := String → Nat → Bool

/-- Pointwise update of a status map at one step identity. -/
def setSt (st : StatusMap) (b n : String) (v : Status) : StatusMap :=
  fun b' n' => if b' = b ∧ n' = n then v else st b' n'

/-- First step identity in declaration order whose status is `running`. -/
def findRunningId (pb : Playbook) (st : StatusMap) : Option (String × String) :=
  (allStepIds pb).find? (fun p => decide (st p.1 p.2 = .running))

/-- No `pending` step remains in the playbook. -/
def noPendingB (pb : Playbook) (st : StatusMap) : Bool :=
  pb.branches.all (fun br => br.steps.all (fun s => decide (st br.name s.name ≠ .pending)))

/-- Some step of the playbook has status `failed`. -/
def anyFailedB (pb : Playbook) (st : StatusMap) : Bool :=
  pb.branches.any (fun br => br.steps.any (fun s => decide (st br.name s.name = .failed)))

/-- The playbook has at least one step. -/
def hasStep (pb : Playbook) : Bool :=
  pb.branches.any (fun br => !br.steps.isEmpty)

/-- Modelled from the spec: finishing the execution of the running step
`p` (spec sections 4.2-4.3): run the executor with the step's agent and
retry budget, record the terminal status, append one log event per
attempt, and bump the counters. -/
def finishStep (pb : Playbook) (ag : AgentMap) (es : EngineState)
    (p : String × String) : EngineState :=
  match findStepIn pb p.1 p.2 with
  | some stp =>
      let r := executeStep (ag stp.agent) p.1 p.2 stp.retries
      { es with
        statuses := setSt es.statuses p.1 p.2 r.1,
        log := es.log ++ r.2.2,
        completedCount := es.completedCount + (if r.1 = .completed then 1 else 0),
        failedCount := es.failedCount + (if r.1 = .failed then 1 else 0) }
  | none => es

/-- Modelled from the spec: the resolver-pass half of a scheduling tick
(spec sections 4.1 and 4.3): apply the skip transition, compute the
ready set on the resulting map, dispatch the first ready step, or update
the run phase when nothing is ready (`completed` when no pending steps
remain and none failed, `failed` otherwise). -/
def dispatchStep (pb : Playbook) (es : EngineState) : EngineState :=
  match getNextExecutableSteps pb (markSkipped pb es.statuses) with
  | [] =>
      if noPendingB pb (markSkipped pb es.statuses) ∧
          anyFailedB pb (markSkipped pb es.statuses) = false then
        { es with statuses := markSkipped pb es.statuses, phase := .completed }
      else
        { es with statuses := markSkipped pb es.statuses, phase := .failed }
  | p :: _ => { es with statuses := setSt (markSkipped pb es.statuses) p.1 p.2 .running }

/-- Modelled from the spec: one deterministic scheduling tick of the
engine (spec section 4.3), sequentialized: if a step is `running`,
finish its execution; otherwise perform the resolver pass and dispatch
the first ready step or update the run phase. -/
def tick (pb : Playbook) (ag : AgentMap) (es : EngineState) : EngineState :=
  if es.phase = .running then
    match findRunningId pb es.statuses with
    | some p => finishStep pb ag es p
    | none => dispatchStep pb es
  else es

/-- Iterated scheduler ticks. -/
def iterTick (pb : Playbook) (ag : AgentMap) : Nat → EngineState → EngineState
  | 0, es => es
  | n + 1, es => iterTick pb ag n (tick pb ag es)

/-- The all-pending status map of a fresh run. -/
def allPending : StatusMap := fun _ _ => .pending

/-- Modelled from the spec: the fresh ExecutionState of a run
(spec section 3): phase `idle`, every step `pending`, empty log,
zero counters. -/
def initEngineState : EngineState :=
  { phase := .idle, statuses := allPending, log := [], completedCount := 0, failedCount := 0 }

/-- Modelled from the spec: `start()` (spec section 4.3): `idle` goes to
`running` provided the playbook has at least one step. -/
def startCmd (pb : Playbook) (es : EngineState) : EngineState :=
  if es.phase = .idle ∧ hasStep pb then { es with phase := .running } else es

/-- Modelled from the spec: `pause()` (spec section 4.3). -/
def pauseCmd (es : EngineState) : EngineState :=
  if es.phase = .running then { es with phase := .paused } else es

/-- Modelled from the spec: `resume()` (spec section 4.3). -/
def resumeCmd (es : EngineState) : EngineState :=
  if es.phase = .paused then { es with phase := .running } else es

/-- Modelled from the spec: `stop()` (spec section 4.3): `running` or
`paused` goes to `idle`; the ExecutionState is preserved for
inspection. -/
def stopCmd (es : EngineState) : EngineState :=
  if es.phase = .running ∨ es.phase = .paused then { es with phase := .idle } else es

/-- Modelled from the spec: `reset()` (spec section 4.3): any state goes
to `idle` with all step statuses back to `pending`, the event log
cleared and counters zero; while `running` it first performs an implicit
`stop()`. -/
def resetCmd (es : EngineState) : EngineState :=
  let es1 := if es.phase = .running then stopCmd es else es
  { es1 with
    phase := .idle,
    statuses := allPending,
    log := [],
    completedCount := 0,
    failedCount := 0 }

/-- Position of a status along the advancing order
`pending -> running -> completed/failed -> skipped by downstream`
(spec section 5, ordering guarantees). -/
def statusRank : Status → Nat
  | .pending => 0
  | .running => 1
  | .completed => 2
  | .failed => 2
  | .skipped => 3

/-! ### MCP registry, embedded from src/src/main.go -/

/-- Embedded from src/src/main.go lines 52-57: server metadata. -/
structure MCPMetadata where
  Framework : String
  Category : String
  HealthCheck : String
  EnvironmentVars : List String
deriving DecidableEq, Repr

/-- Embedded from src/src/main.go lines 38-50: an MCP server record. -/
structure MCPServer where
  Name : String
  Endpoint : String
  Tools : List String
  Status : String
  Version : String
  Description : String
  Metadata : MCPMetadata
  RegisteredAt : String
  LastHealthCheck : String
  LastSeen : Option String
  HealthCheckFails : Int
deriving DecidableEq, Repr

/-- Embedded from src/src/main.go lines 66-73: a tool record. -/
structure MCPTool where
  Name : String
  ServerName : String
  Description : String
  UseCount : Int
  ErrorCount : Int
  LastUsed : String
deriving DecidableEq, Repr

/-- Embedded from src/src/main.go lines 59-64: the registry. -/
structure MCPRegistry where
  Version : String
  Timestamp : String
  Servers : List MCPServer
  Tools : List MCPTool
deriving DecidableEq, Repr

/-- Embedded from src/src/main.go lines 729-738: the loop body of
`toggleServer` applied to the server list.  The first server whose Name
matches has its Status toggled (`active`, `production-ready` or
`running` become `inactive`, anything else becomes `active`) and the
loop breaks; all other servers are left as they are. -/
def toggleServers (serverName : String) : List MCPServer → List MCPServer
  | [] => []
  | srv :: rest =>
      if srv.Name = serverName then
        (if srv.Status = "active" ∨ srv.Status = "production-ready" ∨ srv.Status = "running" then
          { srv with Status := "inactive" }
        else
          { srv with Status := "active" }) :: rest
      else srv :: toggleServers serverName rest

/-- Embedded from src/src/main.go lines 722-742: `toggleServer` loads
the registry, toggles the status of the first matching server, and
passes the updated registry to `saveMCPRegistry`, which writes it back
verbatim; the load/save I/O is abstracted into the pure transformation
applied between them. -/
def toggleServer (reg : MCPRegistry) (serverName : String) : MCPRegistry :=
  { reg with Servers := toggleServers serverName reg.Servers }

/-! ### Concrete fixtures for counterexamples and witnesses -/

/-- A playbook whose step dependency graph has the cycle a -> b -> a. -/
def cycPb : Playbook :=
  { name := "cyclic",
    version := "1.0.0",
    vars := [],
    branches :=
      [{ name := "main",
         parallel := false,
         prerequisites := [],
         steps :=
           [{ name := "a", agent := "shell", action := "run a", condition := .start,
              dependsOn := ["b"], timeout := 60, retries := 0 },
            { name := "b", agent := "shell", action := "run b", condition := .start,
              dependsOn := ["a"], timeout := 60, retries := 0 }] }] }

/-- A file system holding exactly one regular file, `cyclic.yaml`, whose
contents are the cyclic playbook `cycPb`. -/
def fsCyc : FS := fun p =>
  if p = "cyclic.yaml" then .ok { isDir := false, content := some cycPb } else .notExist

/-- A file system where `os.Stat` on `locked/secret.txt` fails with an
error other than not-exist (for example a permission error on the
parent directory). -/
def fsPerm : FS := fun p =>
  if p = "locked/secret.txt" then .errOther else .notExist

/-- A file system with a regular file, a directory, and nothing else. -/
def fsPlain : FS := fun p =>
  if p = "deploy.yaml" then .ok { isDir := false, content := none }
  else if p = "playbooks" then .ok { isDir := true, content := none }
  else .notExist

/-- A step that declares a dependency on step `boom` but is gated only
by the condition `start`. -/
def stepAfter : Step :=
  { name := "after", agent := "good", action := "dependent work", condition := .start,
    dependsOn := ["boom"], timeout := 60, retries := 0 }

/-- A step whose agent always fails. -/
def stepBoom : Step :=
  { name := "boom", agent := "bad", action := "doomed work", condition := .start,
    dependsOn := [], timeout := 60, retries := 0 }

/-- A two-step acyclic playbook: step `after` declares a dependency on
step `boom` but is gated only by the condition `start`; `boom` always
fails.  Used to exercise the resolver and scheduler. -/
def pbDep : Playbook :=
  { name := "dep-demo",
    version := "1.0.0",
    vars := [],
    branches :=
      [{ name := "main",
         parallel := false,
         prerequisites := [],
         steps := [stepAfter, stepBoom] }] }

/-- Agents for `pbDep`: agent `good` always succeeds, agent `bad`
always fails. -/
def agDep : AgentMap := fun a _ => a = "good"

/-- The running engine state at the start of a `pbDep` run. -/
def esDep0 : EngineState := startCmd pbDep initEngineState

/-- A status map for `pbDep` in which `boom` has already failed while
`after` is still pending. -/
def stDepFailed : StatusMap := fun _ n => if n = "boom" then .failed else .pending

/-- An engine state for `pbDep` mid-run with `boom` failed and `after`
pending. -/
def esDepFailed : EngineState :=
  { phase := .running, statuses := stDepFailed, log := [], completedCount := 0, failedCount := 1 }

/-- A small acyclic playbook with a branch prerequisite, used as a
resolver witness input. -/
def pbWit : Playbook :=
  { name := "witness",
    version := "1.0.0",
    vars := [],
    branches :=
      [{ name := "backend",
         parallel := false,
         prerequisites := [],
         steps :=
           [{ name := "setup", agent := "shell", action := "setup", condition := .start,
              dependsOn := [], timeout := 60, retries := 0 },
            { name := "configure", agent := "shell", action := "configure",
              condition := .completedOf "setup", dependsOn := ["setup"], timeout := 60,
              retries := 0 }] },
       { name := "frontend",
         parallel := true,
         prerequisites := ["backend"],
         steps :=
           [{ name := "build", agent := "shell", action := "build", condition := .start,
              dependsOn := [], timeout := 60, retries := 0 }] }] }

/-- A concrete two-server registry fixture. -/
def regWit : MCPRegistry :=
  { Version := "1.0.0",
    Timestamp := "2025-07-10T20:18:54.491349",
    Servers :=
      [{ Name := "context7-mcp", Endpoint := "stdio://context7", Tools := ["get_context"],
         Status := "inactive", Version := "1.0.0", Description := "contextual reasoning",
         Metadata := { Framework := "FastMCP", Category := "knowledge",
                       HealthCheck := "ping", EnvironmentVars := [] },
         RegisteredAt := "2025-07-10", LastHealthCheck := "2025-07-10", LastSeen := none,
         HealthCheckFails := 0 },
       { Name := "crawl4ai-mcp", Endpoint := "stdio://crawl4ai", Tools := ["crawl"],
         Status := "active", Version := "1.0.0", Description := "web crawling",
         Metadata := { Framework := "FastMCP", Category := "web",
                       HealthCheck := "ping", EnvironmentVars := [] },
         RegisteredAt := "2025-07-10", LastHealthCheck := "2025-07-10", LastSeen := none,
         HealthCheckFails := 0 }],
    Tools := [] }

/-! ### Helper lemmas: resolver -/

theorem any_congr_helper {α : Type} {p q : α → Bool} (h : ∀ a, p a = q a) :
    ∀ l : List α, l.any p = l.any q := by
  intro l
  induction l with
  | nil => rfl
  | cons a l ih => simp only [List.any_cons, h a, ih]

theorem mem_getNext_iff (pb : Playbook) (st : StatusMap) (b n : String) :
    (b, n) ∈ getNextExecutableSteps pb st ↔
      ∃ br, br ∈ pb.branches ∧ br.name = b ∧ prereqsCompletedB pb st br = true ∧
        ∃ stp, stp ∈ br.steps ∧ stp.name = n ∧ st b n = .pending ∧
          condSatisfiedB pb st stp.condition = true := by
  unfold getNextExecutableSteps
  rw [List.mem_flatMap]
  constructor
  · rintro ⟨br, hbr, hmem⟩
    by_cases hp : prereqsCompletedB pb st br = true
    · rw [if_pos hp] at hmem
      rw [List.mem_map] at hmem
      obtain ⟨stp, hstp, heq⟩ := hmem
      rw [List.mem_filter] at hstp
      obtain ⟨hstp, hready⟩ := hstp
      obtain ⟨hb, hn⟩ : br.name = b ∧ stp.name = n :=
        ⟨congrArg Prod.fst heq, congrArg Prod.snd heq⟩
      unfold stepReadyB at hready
      rw [Bool.and_eq_true] at hready
      obtain ⟨hpend, hcond⟩ := hready
      refine ⟨br, hbr, hb, hp, stp, hstp, hn, ?_, hcond⟩
      have := of_decide_eq_true hpend
      rwa [hb, hn] at this
    · rw [if_neg hp] at hmem
      exact absurd hmem (List.not_mem_nil _)
  · rintro ⟨br, hbr, hb, hp, stp, hstp, hn, hpend, hcond⟩
    refine ⟨br, hbr, ?_⟩
    rw [if_pos hp]
    rw [List.mem_map]
    refine ⟨stp, ?_, by rw [hb, hn]⟩
    rw [List.mem_filter]
    refine ⟨hstp, ?_⟩
    unfold stepReadyB
    rw [Bool.and_eq_true]
    refine ⟨?_, hcond⟩
    rw [hb, hn]
    exact decide_eq_true hpend

theorem flatMap_sublist {α β : Type} (f g : α → List β) (h : ∀ a, (f a).Sublist (g a)) :
    ∀ l : List α, (l.flatMap f).Sublist (l.flatMap g) := by
  intro l
  induction l with
  | nil => simp
  | cons a l ih =>
      rw [List.flatMap_cons, List.flatMap_cons]
      exact List.Sublist.append (h a) ih

theorem getNext_sublist (pb : Playbook) (st : StatusMap) :
    (getNextExecutableSteps pb st).Sublist (allStepIds pb) := by
  unfold getNextExecutableSteps allStepIds
  refine flatMap_sublist _ _ (fun br => ?_) pb.branches
  by_cases hp : prereqsCompletedB pb st br = true
  · rw [if_pos hp]
    exact List.Sublist.map _ (List.filter_sublist br.steps)
  · rw [if_neg hp]
    exact List.nil_sublist _

theorem mem_getNext_pending (pb : Playbook) (st : StatusMap) (b n : String)
    (h : (b, n) ∈ getNextExecutableSteps pb st) : st b n = .pending := by
  obtain ⟨br, _, _, _, stp, _, _, hpend, _⟩ := (mem_getNext_iff pb st b n).1 h
  exact hpend

/-! ### Helper lemmas: skip transition -/

theorem markSkipped_cases (pb : Playbook) (st : StatusMap) (b n : String) :
    markSkipped pb st b n = st b n ∨
      (st b n = .pending ∧ markSkipped pb st b n = .skipped) := by
  unfold markSkipped
  split
  · split
    · next h => exact Or.inr ⟨h.1, rfl⟩
    · exact Or.inl rfl
  · exact Or.inl rfl

theorem markSkipped_pending (pb : Playbook) (st : StatusMap) (b n : String)
    (h : markSkipped pb st b n = .pending) : st b n = .pending := by
  rcases markSkipped_cases pb st b n with hc | ⟨hp, hc⟩
  · rw [hc] at h
    exact h
  · rw [hc] at h
    exact absurd h (by simp)

theorem markSkipped_failed_iff (pb : Playbook) (st : StatusMap) (b n : String) :
    markSkipped pb st b n = .failed ↔ st b n = .failed := by
  rcases markSkipped_cases pb st b n with hc | ⟨hp, hc⟩
  · rw [hc]
  · rw [hc, hp]
    decide

theorem statusOfName_markSkipped_failed (pb : Playbook) (st : StatusMap) (nm : String) :
    statusOfName pb (markSkipped pb st) nm = some .failed ↔
      statusOfName pb st nm = some .failed := by
  unfold statusOfName
  rcases h : resolveStepName pb nm with _ | p
  · exact Iff.rfl
  · show some (markSkipped pb st p.1 p.2) = some Status.failed ↔
      some (st p.1 p.2) = some Status.failed
    simp only [Option.some.injEq]
    exact markSkipped_failed_iff pb st p.1 p.2

theorem condHopelessB_markSkipped (pb : Playbook) (st : StatusMap) (c : Cond) :
    condHopelessB pb (markSkipped pb st) c = condHopelessB pb st c := by
  rcases c with _ | nm | nm
  · rfl
  · unfold condHopelessB
    rw [decide_eq_decide]
    exact statusOfName_markSkipped_failed pb st nm
  · rfl

theorem depFailedB_markSkipped (pb : Playbook) (st : StatusMap) (stp : Step) :
    depFailedB pb (markSkipped pb st) stp = depFailedB pb st stp := by
  unfold depFailedB
  have h1 : ∀ d : String,
      decide (statusOfName pb (markSkipped pb st) d = some .failed) =
        decide (statusOfName pb st d = some .failed) := by
    intro d
    rw [decide_eq_decide]
    exact statusOfName_markSkipped_failed pb st d
  rw [any_congr_helper h1, condHopelessB_markSkipped]

theorem markSkipped_eval_some (pb : Playbook) (st : StatusMap) (b n : String) (stp : Step)
    (hf : findStepIn pb b n = some stp) :
    markSkipped pb st b n =
      if st b n = .pending ∧ depFailedB pb st stp = true then .skipped else st b n := by
  unfold markSkipped
  rw [hf]

theorem markSkipped_idem (pb : Playbook) (st : StatusMap) :
    markSkipped pb (markSkipped pb st) = markSkipped pb st := by
  funext b n
  rcases hf : findStepIn pb b n with _ | stp
  · show (match findStepIn pb b n with
      | some stp =>
          if markSkipped pb st b n = .pending ∧ depFailedB pb (markSkipped pb st) stp = true
          then Status.skipped else markSkipped pb st b n
      | none => markSkipped pb st b n) = markSkipped pb st b n
    rw [hf]
  · rw [markSkipped_eval_some pb (markSkipped pb st) b n stp hf]
    rw [depFailedB_markSkipped]
    by_cases h : st b n = .pending ∧ depFailedB pb st stp = true
    · have hsk : markSkipped pb st b n = .skipped := by
        rw [markSkipped_eval_some pb st b n stp hf, if_pos h]
      rw [hsk]
      rw [if_neg (by rintro ⟨h1, _⟩; cases h1)]
    · have hsame : markSkipped pb st b n = st b n := by
        rw [markSkipped_eval_some pb st b n stp hf, if_neg h]
      rw [hsame, if_neg h]

/-! ### Helper lemmas: executor -/

theorem attemptLoop_terminal (invoke : Nat → Bool) (b s : String) :
    ∀ budget k, (attemptLoop invoke b s k budget).1 = .completed ∨
      (attemptLoop invoke b s k budget).1 = .failed := by
  intro budget
  induction budget with
  | zero =>
      intro k
      by_cases h : invoke k = true
      · left
        simp [attemptLoop, h]
      · right
        simp [attemptLoop, h]
  | succ bud ih =>
      intro k
      by_cases h : invoke k = true
      · left
        simp [attemptLoop, h]
      · have := ih (k + 1)
        simpa [attemptLoop, h] using this

/-! ### Helper lemmas: scheduler -/

theorem markSkipped_rank (pb : Playbook) (st : StatusMap) (b n : String) :
    statusRank (st b n) ≤ statusRank (markSkipped pb st b n) := by
  rcases markSkipped_cases pb st b n with hc | ⟨hp, hc⟩
  · rw [hc]
  · rw [hc, hp]
    decide

theorem markSkipped_notrun (pb : Playbook) (st : StatusMap) (b n : String)
    (h : st b n ≠ .running) : markSkipped pb st b n ≠ .running := by
  rcases markSkipped_cases pb st b n with hc | ⟨hp, hc⟩
  · rw [hc]
    exact h
  · rw [hc]
    intro hx
    cases hx

theorem findRunningId_running (pb : Playbook) (st : StatusMap) (p : String × String)
    (h : findRunningId pb st = some p) : st p.1 p.2 = .running := by
  unfold findRunningId at h
  have hq := List.find?_some h
  exact of_decide_eq_true hq

theorem depFailed_not_ready (pb : Playbook) (st : StatusMap) (bs ns : String) (stp : Step)
    (hs : findStepIn pb bs ns = some stp) (hd : depFailedB pb st stp = true) :
    (bs, ns) ∉ getNextExecutableSteps pb (markSkipped pb st) := by
  intro hmem
  have hpend1 := mem_getNext_pending _ _ _ _ hmem
  have hpend0 := markSkipped_pending _ _ _ _ hpend1
  have hsk : markSkipped pb st bs ns = .skipped := by
    rw [markSkipped_eval_some pb st bs ns stp hs, if_pos ⟨hpend0, hd⟩]
  rw [hsk] at hpend1
  cases hpend1

theorem finishStep_rank (pb : Playbook) (ag : AgentMap) (es : EngineState)
    (p : String × String) (hp : es.statuses p.1 p.2 = .running) (b n : String) :
    statusRank (es.statuses b n) ≤ statusRank ((finishStep pb ag es p).statuses b n) := by
  unfold finishStep
  split
  · next stp hf =>
      dsimp only
      unfold setSt
      split
      · next hbn =>
          rcases hbn with ⟨hb, hn⟩
          rw [hb, hn, hp]
          rcases attemptLoop_terminal (ag stp.agent) p.1 p.2 stp.retries 0 with ht | ht <;>
            rw [show executeStep (ag stp.agent) p.1 p.2 stp.retries =
              attemptLoop (ag stp.agent) p.1 p.2 0 stp.retries from rfl, ht] <;> decide
      · exact le_refl _
  · exact le_refl _

theorem dispatchStep_rank (pb : Playbook) (es : EngineState) (b n : String) :
    statusRank (es.statuses b n) ≤ statusRank ((dispatchStep pb es).statuses b n) := by
  unfold dispatchStep
  split
  · split <;> dsimp only <;> exact markSkipped_rank pb es.statuses b n
  · next p l heq =>
      dsimp only
      unfold setSt
      split
      · next hbn =>
          rcases hbn with ⟨hb, hn⟩
          have hmem : p ∈ getNextExecutableSteps pb (markSkipped pb es.statuses) := by
            rw [heq]
            exact List.mem_cons_self p l
          have hmem2 : (p.1, p.2) ∈ getNextExecutableSteps pb (markSkipped pb es.statuses) := by
            rwa [Prod.mk.eta]
          have hpend1 := mem_getNext_pending _ _ _ _ hmem2
          have hpend0 := markSkipped_pending _ _ _ _ hpend1
          rw [hb, hn, hpend0]
          decide
      · exact markSkipped_rank pb es.statuses b n

theorem tick_rank (pb : Playbook) (ag : AgentMap) (es : EngineState) (b n : String) :
    statusRank (es.statuses b n) ≤ statusRank ((tick pb ag es).statuses b n) := by
  unfold tick
  split
  · split
    · next p hr => exact finishStep_rank pb ag es p (findRunningId_running pb es.statuses p hr) b n
    · exact dispatchStep_rank pb es b n
  · exact le_refl _

theorem finishStep_failed (pb : Playbook) (ag : AgentMap) (es : EngineState)
    (p : String × String) (hp : es.statuses p.1 p.2 = .running) (b n : String)
    (h : es.statuses b n = .failed) : (finishStep pb ag es p).statuses b n = .failed := by
  unfold finishStep
  split
  · dsimp only
    unfold setSt
    split
    · next hbn =>
        rcases hbn with ⟨hb, hn⟩
        rw [hb, hn] at h
        rw [h] at hp
        cases hp
    · exact h
  · exact h

theorem dispatchStep_failed (pb : Playbook) (es : EngineState) (b n : String)
    (h : es.statuses b n = .failed) : (dispatchStep pb es).statuses b n = .failed := by
  unfold dispatchStep
  split
  · split <;> dsimp only <;> exact (markSkipped_failed_iff pb es.statuses b n).2 h
  · next p l heq =>
      dsimp only
      unfold setSt
      split
      · next hbn =>
          rcases hbn with ⟨hb, hn⟩
          have hmem : p ∈ getNextExecutableSteps pb (markSkipped pb es.statuses) := by
            rw [heq]
            exact List.mem_cons_self p l
          have hmem2 : (p.1, p.2) ∈ getNextExecutableSteps pb (markSkipped pb es.statuses) := by
            rwa [Prod.mk.eta]
          have hpend0 := markSkipped_pending _ _ _ _ (mem_getNext_pending _ _ _ _ hmem2)
          rw [hb, hn] at h
          rw [h] at hpend0
          cases hpend0
      · exact (markSkipped_failed_iff pb es.statuses b n).2 h

theorem tick_failed (pb : Playbook) (ag : AgentMap) (es : EngineState) (b n : String)
    (h : es.statuses b n = .failed) : (tick pb ag es).statuses b n = .failed := by
  unfold tick
  split
  · split
    · next p hr => exact finishStep_failed pb ag es p (findRunningId_running pb es.statuses p hr) b n h
    · exact dispatchStep_failed pb es b n h
  · exact h

theorem statusOfName_failed_tick (pb : Playbook) (ag : AgentMap) (es : EngineState) (nm : String)
    (h : statusOfName pb es.statuses nm = some .failed) :
    statusOfName pb (tick pb ag es).statuses nm = some .failed := by
  unfold statusOfName at h ⊢
  rcases hr : resolveStepName pb nm with _ | p
  · rw [hr] at h
    simp at h
  · rw [hr] at h
    have h2 : es.statuses p.1 p.2 = Status.failed := by simpa using h
    show some ((tick pb ag es).statuses p.1 p.2) = some Status.failed
    rw [tick_failed pb ag es p.1 p.2 h2]

theorem depFailedB_tick (pb : Playbook) (ag : AgentMap) (es : EngineState) (stp : Step)
    (h : depFailedB pb es.statuses stp = true) :
    depFailedB pb (tick pb ag es).statuses stp = true := by
  unfold depFailedB at h ⊢
  rw [Bool.or_eq_true] at h ⊢
  rcases h with h | h
  · left
    rw [List.any_eq_true] at h ⊢
    obtain ⟨d, hd, hdec⟩ := h
    exact ⟨d, hd, decide_eq_true (statusOfName_failed_tick pb ag es d (of_decide_eq_true hdec))⟩
  · right
    rcases hc : stp.condition with _ | nm | nm <;> rw [hc] at h
    · cases h
    · exact decide_eq_true (statusOfName_failed_tick pb ag es nm (of_decide_eq_true h))
    · cases h

theorem tick_notrun (pb : Playbook) (ag : AgentMap) (es : EngineState) (bs ns : String)
    (stp : Step) (hs : findStepIn pb bs ns = some stp)
    (hd : depFailedB pb es.statuses stp = true) (hnr : es.statuses bs ns ≠ .running) :
    (tick pb ag es).statuses bs ns ≠ .running := by
  unfold tick
  split
  · split
    · next p hr =>
        have hp := findRunningId_running pb es.statuses p hr
        unfold finishStep
        split
        · dsimp only
          unfold setSt
          split
          · next hbn =>
              rcases hbn with ⟨hb, hn⟩
              rw [hb, hn] at hnr
              exact absurd hp hnr
          · exact hnr
        · exact hnr
    · unfold dispatchStep
      split
      · split <;> dsimp only <;> exact markSkipped_notrun pb es.statuses bs ns hnr
      · next p l heq =>
          dsimp only
          unfold setSt
          split
          · next hbn =>
              rcases hbn with ⟨hb, hn⟩
              have hmem : p ∈ getNextExecutableSteps pb (markSkipped pb es.statuses) := by
                rw [heq]
                exact List.mem_cons_self p l
              have hmem2 : (bs, ns) ∈ getNextExecutableSteps pb (markSkipped pb es.statuses) := by
                rw [hb, hn, Prod.mk.eta]
                exact hmem
              exact absurd hmem2 (depFailed_not_ready pb es.statuses bs ns stp hs hd)
          · exact markSkipped_notrun pb es.statuses bs ns hnr
  · exact hnr

theorem iterTick_notrun (pb : Playbook) (ag : AgentMap) (bs ns : String) (stp : Step)
    (hs : findStepIn pb bs ns = some stp) :
    ∀ (m : Nat) (es : EngineState), depFailedB pb es.statuses stp = true →
      es.statuses bs ns ≠ .running →
      depFailedB pb (iterTick pb ag m es).statuses stp = true ∧
        (iterTick pb ag m es).statuses bs ns ≠ .running := by
  intro m
  induction m with
  | zero => exact fun es hd hnr => ⟨hd, hnr⟩
  | succ m ih =>
      intro es hd hnr
      exact ih (tick pb ag es) (depFailedB_tick pb ag es stp hd)
        (tick_notrun pb ag es bs ns stp hs hd hnr)

/-! ### Helper lemmas: registry toggle -/

theorem toggleServers_length (nm : String) :
    ∀ l : List MCPServer, (toggleServers nm l).length = l.length := by
  intro l
  induction l with
  | nil => rfl
  | cons srv rest ih =>
      simp only [toggleServers]
      by_cases h : srv.Name = nm
      · rw [if_pos h]
        simp
      · rw [if_neg h]
        simp [ih]

theorem toggleServers_getElem_ne (nm : String) :
    ∀ (l : List MCPServer) (i : Nat),
      i ≠ l.findIdx (fun srv => decide (srv.Name = nm)) →
      (toggleServers nm l)[i]? = l[i]? := by
  intro l
  induction l with
  | nil => intro i _; rfl
  | cons srv rest ih =>
      intro i hi
      by_cases h : srv.Name = nm
      · have hidx : (srv :: rest).findIdx (fun srv2 => decide (srv2.Name = nm)) = 0 := by
          rw [List.findIdx_cons]
          simp [h]
        rw [hidx] at hi
        obtain ⟨j, rfl⟩ : ∃ j, i = j + 1 := ⟨i - 1, by omega⟩
        simp only [toggleServers, if_pos h]
        rw [List.getElem?_cons_succ, List.getElem?_cons_succ]
      · have hidx : (srv :: rest).findIdx (fun srv2 => decide (srv2.Name = nm)) =
            rest.findIdx (fun srv2 => decide (srv2.Name = nm)) + 1 := by
          rw [List.findIdx_cons]
          simp [h]
        rw [hidx] at hi
        simp only [toggleServers, if_neg h]
        cases i with
        | zero => rw [List.getElem?_cons_zero, List.getElem?_cons_zero]
        | succ j =>
            rw [List.getElem?_cons_succ, List.getElem?_cons_succ]
            refine ih j ?_
            intro hj
            exact hi (by rw [hj])

theorem toggleServers_getElem_match (nm : String) :
    ∀ (l : List MCPServer) (srv : MCPServer),
      l[l.findIdx (fun srv2 => decide (srv2.Name = nm))]? = some srv →
      (toggleServers nm l)[l.findIdx (fun srv2 => decide (srv2.Name = nm))]? =
        some { srv with Status :=
          if srv.Status = "active" ∨ srv.Status = "production-ready" ∨ srv.Status = "running"
          then "inactive" else "active" } := by
  intro l
  induction l with
  | nil =>
      intro srv hsrv
      simp at hsrv
  | cons a rest ih =>
      intro srv hsrv
      by_cases h : a.Name = nm
      · have hidx : (a :: rest).findIdx (fun srv2 => decide (srv2.Name = nm)) = 0 := by
          rw [List.findIdx_cons]
          simp [h]
        rw [hidx] at hsrv ⊢
        rw [List.getElem?_cons_zero] at hsrv
        have ha : a = srv := Option.some.inj hsrv
        subst ha
        simp only [toggleServers, if_pos h]
        rw [List.getElem?_cons_zero]
        by_cases hs : a.Status = "active" ∨ a.Status = "production-ready" ∨ a.Status = "running"
        · rw [if_pos hs, if_pos hs]
        · rw [if_neg hs, if_neg hs]
      · have hidx : (a :: rest).findIdx (fun srv2 => decide (srv2.Name = nm)) =
            rest.findIdx (fun srv2 => decide (srv2.Name = nm)) + 1 := by
          rw [List.findIdx_cons]
          simp [h]
        rw [hidx] at hsrv ⊢
        rw [List.getElem?_cons_succ] at hsrv
        simp only [toggleServers, if_neg h]
        rw [List.getElem?_cons_succ]
        exact ih srv hsrv

theorem toggleServers_nomatch (nm : String) :
    ∀ l : List MCPServer, (∀ srv ∈ l, srv.Name ≠ nm) → toggleServers nm l = l := by
  intro l
  induction l with
  | nil => intro _; rfl
  | cons srv rest ih =>
      intro h
      simp only [toggleServers]
      rw [if_neg (h srv (List.mem_cons_self srv rest))]
      rw [ih (fun s hs => h s (List.mem_cons_of_mem srv hs))]

/-! ### Claim theorems -/

/-- C3: for every playbook and status map, getNextExecutableSteps
returns exactly the (branch, step) identities whose Condition is
satisfied, whose Status is pending, and whose owning branch's
prerequisite branches are all fully completed; the returned list is a
sublist of the declaration-order listing of all steps, i.e. it is
ordered by branch declaration order and then step declaration order. -/
theorem getNextExecutableSteps_spec (pb : Playbook) (st : StatusMap) :
    (∀ b n, (b, n) ∈ getNextExecutableSteps pb st ↔
      ∃ br, br ∈ pb.branches ∧ br.name = b ∧ prereqsCompletedB pb st br = true ∧
        ∃ stp, stp ∈ br.steps ∧ stp.name = n ∧ st b n = .pending ∧
          condSatisfiedB pb st stp.condition = true)
    ∧ (getNextExecutableSteps pb st).Sublist (allStepIds pb) :=
  ⟨fun b n => mem_getNext_iff pb st b n, getNext_sublist pb st⟩

/-- C4: for every acyclic playbook and fixed status map, repeating the
resolver pass with no external status changes in between is idempotent:
the skip-marked status map is a fixpoint and the returned ready set is
identical on every call; the resolver is a pure function of its inputs
and the playbook is untouched. -/
theorem resolverPass_idempotent (pb : Playbook) (st : StatusMap)
    (h : depsAcyclic pb = true) :
    resolverPass pb (resolverPass pb st).1 = resolverPass pb st := by
  unfold resolverPass
  rw [markSkipped_idem pb st]

/-- Witness for C4 at a concrete acyclic playbook and the all-pending
status map. -/
theorem resolverPass_idempotent_witness :
    resolverPass pbWit (resolverPass pbWit allPending).1 = resolverPass pbWit allPending :=
  resolverPass_idempotent pbWit allPending (by decide)

theorem attemptLoop_all_fail (invoke : Nat → Bool) (b s : String)
    (h : ∀ k, invoke k = false) :
    ∀ budget k, (attemptLoop invoke b s k budget).1 = .failed ∧
      (attemptLoop invoke b s k budget).2.1 = budget + 1 ∧
      (attemptLoop invoke b s k budget).2.2.length = budget + 1 := by
  intro budget
  induction budget with
  | zero =>
      intro k
      refine ⟨?_, ?_, ?_⟩ <;> simp [attemptLoop, h k]
  | succ bud ih =>
      intro k
      obtain ⟨h1, h2, h3⟩ := ih (k + 1)
      refine ⟨?_, ?_, ?_⟩ <;> simp [attemptLoop, h k, h1, h2, h3]

/-- C6: for every step with maximum retry count N whose agent invocation
fails on every attempt, the executor makes exactly 1 + N total attempts,
the final status is failed, and exactly one log event is emitted per
attempt. -/
theorem executeStep_exhausts_retries (invoke : Nat → Bool) (b s : String) (retries : Nat)
    (h : ∀ k, invoke k = false) :
    (executeStep invoke b s retries).1 = .failed ∧
      (executeStep invoke b s retries).2.1 = retries + 1 ∧
      (executeStep invoke b s retries).2.2.length = (executeStep invoke b s retries).2.1 :=
  let r := attemptLoop_all_fail invoke b s h retries 0
  ⟨r.1, r.2.1, by unfold executeStep; rw [r.2.2, r.2.1]⟩

/-- Witness for C6 with retries = 2 and an always-failing agent: exactly
3 attempts, final status failed, exactly 3 log entries. -/
theorem executeStep_exhausts_retries_witness :
    (executeStep (fun _ => false) "main" "build" 2).1 = .failed ∧
      (executeStep (fun _ => false) "main" "build" 2).2.1 = 3 ∧
      (executeStep (fun _ => false) "main" "build" 2).2.2.length =
        (executeStep (fun _ => false) "main" "build" 2).2.1 :=
  executeStep_exhausts_retries (fun _ => false) "main" "build" 2 (fun _ => rfl)

/-- C7: from every run phase, reset() leaves the run in phase idle with
every step's status pending, the event log empty, and both counters
zero. -/
theorem reset_clears_run (es : EngineState) :
    (resetCmd es).phase = .idle ∧ (∀ b n, (resetCmd es).statuses b n = .pending) ∧
      (resetCmd es).log = [] ∧ (resetCmd es).completedCount = 0 ∧
      (resetCmd es).failedCount = 0 :=
  ⟨rfl, fun _ _ => rfl, rfl, rfl, rfl⟩

/-- C8: in every execution state, a scheduler tick only ever advances a
step's status along the order pending, running, completed/failed,
skipped; the control commands start/pause/resume/stop leave every step
status unchanged; the only operation that reverts a status is reset(),
which puts every step back to pending. -/
theorem status_transitions_monotone (pb : Playbook) (ag : AgentMap) (es : EngineState)
    (b n : String) :
    statusRank (es.statuses b n) ≤ statusRank ((tick pb ag es).statuses b n)
    ∧ (startCmd pb es).statuses b n = es.statuses b n
    ∧ (pauseCmd es).statuses b n = es.statuses b n
    ∧ (resumeCmd es).statuses b n = es.statuses b n
    ∧ (stopCmd es).statuses b n = es.statuses b n
    ∧ (resetCmd es).statuses b n = .pending := by
  refine ⟨tick_rank pb ag es b n, ?_, ?_, ?_, ?_, rfl⟩
  · unfold startCmd
    split <;> rfl
  · unfold pauseCmd
    split <;> rfl
  · unfold resumeCmd
    split <;> rfl
  · unfold stopCmd
    split <;> rfl

/-- C5 counterexample: in the spec's own resolver semantics (section
4.1, readiness is condition AND pending AND branch prerequisites; the
declared dependency list only drives the skip transition), the step
`after` depends on `boom`, `boom` ultimately fails, and yet `after`
reaches the `running` status during the run and finishes `completed`,
never `skipped`.  This refutes the claim that such a dependent step
never reaches `running` at any point in the run. -/
theorem dependent_step_runs :
    findStepIn pbDep "main" "after" = some stepAfter
    ∧ "boom" ∈ stepAfter.dependsOn
    ∧ (iterTick pbDep agDep 5 esDep0).statuses "main" "boom" = .failed
    ∧ (iterTick pbDep agDep 1 esDep0).statuses "main" "after" = .running
    ∧ (iterTick pbDep agDep 5 esDep0).statuses "main" "after" = .completed := by
  refine ⟨by decide, by decide, by decide, by decide, by decide⟩

/-- C5 (amended): once a step's declared dependency has status failed
and the step is not already running, the step (if still pending) is
marked skipped before the ready set is computed on each resolver pass,
never appears in any subsequently computed ready set, and never reaches
the running status from that point on. -/
theorem depFailed_step_skipped (pb : Playbook) (ag : AgentMap) (bs ns : String) (stp : Step)
    (hs : findStepIn pb bs ns = some stp) (es : EngineState)
    (hfd : ∃ d ∈ stp.dependsOn, statusOfName pb es.statuses d = some .failed)
    (hnr : es.statuses bs ns ≠ .running) :
    (es.statuses bs ns = .pending → markSkipped pb es.statuses bs ns = .skipped)
    ∧ (∀ m, (bs, ns) ∉
        getNextExecutableSteps pb (markSkipped pb (iterTick pb ag m es).statuses))
    ∧ (∀ m, (iterTick pb ag m es).statuses bs ns ≠ .running) := by
  have hd : depFailedB pb es.statuses stp = true := by
    unfold depFailedB
    rw [Bool.or_eq_true]
    left
    rw [List.any_eq_true]
    obtain ⟨d, hdm, hdf⟩ := hfd
    exact ⟨d, hdm, decide_eq_true hdf⟩
  have hinv := iterTick_notrun pb ag bs ns stp hs
  refine ⟨?_, ?_, ?_⟩
  · intro hpend
    rw [markSkipped_eval_some pb es.statuses bs ns stp hs, if_pos ⟨hpend, hd⟩]
  · intro m
    exact depFailed_not_ready pb (iterTick pb ag m es).statuses bs ns stp hs
      (hinv m es hd hnr).1
  · intro m
    exact (hinv m es hd hnr).2

/-- Witness for the amended C5 at a concrete mid-run state of `pbDep`
where `boom` has failed and `after` is still pending: the resolver pass
marks `after` skipped, and it is still not running three ticks later. -/
theorem depFailed_step_skipped_witness :
    markSkipped pbDep esDepFailed.statuses "main" "after" = .skipped
    ∧ (iterTick pbDep agDep 3 esDepFailed).statuses "main" "after" ≠ .running :=
  ⟨(depFailed_step_skipped pbDep agDep "main" "after" stepAfter (by decide) esDepFailed
      (by decide) (by decide)).1 (by decide),
   (depFailed_step_skipped pbDep agDep "main" "after" stepAfter (by decide) esDepFailed
      (by decide) (by decide)).2.2 3⟩

/-- C1: the `devgen playbook validate` and `devgen playbook run` command
paths in src/main.go check only that the playbook file exists; the file
`cyclic.yaml` holds a playbook whose step dependency graph has the cycle
a -> b -> a, yet validation reports success (no fatal error) and the run
command reports success as well, so no cycle is ever detected. -/
theorem cyclic_playbook_accepted :
    depsAcyclic cycPb = false
    ∧ fsCyc "cyclic.yaml" = .ok { isDir := false, content := some cycPb }
    ∧ validatePlaybookCmd fsCyc "cyclic.yaml" = some (.ok ())
    ∧ runPlaybook fsCyc "cyclic.yaml" = some (.ok (runOkReport "cyclic.yaml")) := by
  refine ⟨by decide, rfl, rfl, rfl⟩

/-- C9: `fileExists` returns a boolean on existing regular files,
directories and missing paths, but when `os.Stat` fails with an error
other than not-exist (for example a permission error) it dereferences a
nil `FileInfo` and panics, modelled as `none`. -/
theorem fileExists_nil_deref :
    fileExists fsPerm "locked/secret.txt" = none
    ∧ fileExists fsPerm "other.txt" = some false
    ∧ fileExists fsPlain "deploy.yaml" = some true
    ∧ fileExists fsPlain "playbooks" = some false := by
  refine ⟨by decide, by decide, by decide, by decide⟩

theorem fileExists_of_notExist (fs : FS) (f : String) (h : fs f = .notExist) :
    fileExists fs f = some false := by
  unfold fileExists
  rw [h]

theorem fileExists_of_ok (fs : FS) (f : String) (info : FileInfo) (h : fs f = .ok info) :
    fileExists fs f = some (!info.isDir) := by
  unfold fileExists
  rw [h]

theorem runPlaybook_of_false (fs : FS) (f : String) (h : fileExists fs f = some false) :
    runPlaybook fs f = some (.error ("playbook file not found: " ++ f)) := by
  unfold runPlaybook
  rw [h]

theorem runPlaybook_of_true (fs : FS) (f : String) (h : fileExists fs f = some true) :
    runPlaybook fs f = some (.ok (runOkReport f)) := by
  unfold runPlaybook
  rw [h]

/-- C2: provided `os.Stat` does not fail with a non-not-exist error on
the given filename, `runPlaybook` returns a result, that result is an
error exactly when the filename does not name an existing regular file,
a success carries zero executed steps, and the outcome is independent of
the file's contents (any file system assigning the same stat shape to
the filename produces the same outcome). -/
theorem runPlaybook_error_iff (fs : FS) (f : String) (h : fs f ≠ .errOther) :
    ∃ r, runPlaybook fs f = some r ∧
      ((∃ msg, r = .error msg) ↔ ¬ regularFile fs f) ∧
      (∀ rep, r = .ok rep → rep.stepsExecuted = 0) ∧
      (∀ fs2 : FS, sameShape (fs f) (fs2 f) → runPlaybook fs2 f = runPlaybook fs f) := by
  rcases hfs : fs f with _ | _ | info
  · refine ⟨.error ("playbook file not found: " ++ f), ?_, ?_, ?_, ?_⟩
    · exact runPlaybook_of_false fs f (fileExists_of_notExist fs f hfs)
    · constructor
      · rintro _ ⟨info2, heq, _⟩
        rw [hfs] at heq
        cases heq
      · intro _
        exact ⟨_, rfl⟩
    · intro rep hrep
      cases hrep
    · intro fs2 hsh
      rcases hfs2 : fs2 f with _ | _ | i2
      · rw [runPlaybook_of_false fs f (fileExists_of_notExist fs f hfs),
          runPlaybook_of_false fs2 f (fileExists_of_notExist fs2 f hfs2)]
      · rw [hfs2] at hsh
        simp [sameShape] at hsh
      · rw [hfs2] at hsh
        simp [sameShape] at hsh
  · exact absurd hfs h
  · rcases hd : info.isDir with _ | _
    · have hfe : fileExists fs f = some true := by
        rw [fileExists_of_ok fs f info hfs, hd]
        rfl
      refine ⟨.ok (runOkReport f), ?_, ?_, ?_, ?_⟩
      · exact runPlaybook_of_true fs f hfe
      · constructor
        · rintro ⟨msg, hmsg⟩
          cases hmsg
        · intro hn
          exact absurd ⟨info, hfs, hd⟩ hn
      · intro rep hrep
        injection hrep with h3
        rw [← h3]
        rfl
      · intro fs2 hsh
        rcases hfs2 : fs2 f with _ | _ | i2
        · rw [hfs2] at hsh
          simp [sameShape] at hsh
        · rw [hfs2] at hsh
          simp [sameShape] at hsh
        · rw [hfs2] at hsh
          have hsh2 : info.isDir = i2.isDir := hsh
          have hfe2 : fileExists fs2 f = some true := by
            rw [fileExists_of_ok fs2 f i2 hfs2, ← hsh2, hd]
            rfl
          rw [runPlaybook_of_true fs f hfe, runPlaybook_of_true fs2 f hfe2]
    · have hfe : fileExists fs f = some false := by
        rw [fileExists_of_ok fs f info hfs, hd]
        rfl
      refine ⟨.error ("playbook file not found: " ++ f), ?_, ?_, ?_, ?_⟩
      · exact runPlaybook_of_false fs f hfe
      · constructor
        · rintro _ ⟨info2, heq, hdir⟩
          rw [hfs] at heq
          injection heq with h3
          rw [← h3] at hdir
          rw [hd] at hdir
          cases hdir
        · intro _
          exact ⟨_, rfl⟩
      · intro rep hrep
        cases hrep
      · intro fs2 hsh
        rcases hfs2 : fs2 f with _ | _ | i2
        · rw [hfs2] at hsh
          simp [sameShape] at hsh
        · rw [hfs2] at hsh
          simp [sameShape] at hsh
        · rw [hfs2] at hsh
          have hsh2 : info.isDir = i2.isDir := hsh
          have hfe2 : fileExists fs2 f = some false := by
            rw [fileExists_of_ok fs2 f i2 hfs2, ← hsh2, hd]
            rfl
          rw [runPlaybook_of_false fs f hfe, runPlaybook_of_false fs2 f hfe2]

/-- Witness for C2 at a concrete file system: `deploy.yaml` is an
existing regular file, so `runPlaybook` succeeds with no steps
executed. -/
theorem runPlaybook_error_iff_witness :
    ∃ r, runPlaybook fsPlain "deploy.yaml" = some r ∧
      ((∃ msg, r = .error msg) ↔ ¬ regularFile fsPlain "deploy.yaml") ∧
      (∀ rep, r = .ok rep → rep.stepsExecuted = 0) ∧
      (∀ fs2 : FS, sameShape (fsPlain "deploy.yaml") (fs2 "deploy.yaml") →
        runPlaybook fs2 "deploy.yaml" = runPlaybook fsPlain "deploy.yaml") :=
  runPlaybook_error_iff fsPlain "deploy.yaml" (by decide)

/-- C10: `toggleServer` preserves the registry's Version, Timestamp and
Tools, preserves the server list's length, leaves every server other
than the first Name match untouched, replaces the first Name match by
the same record with only its Status toggled (active, production-ready
and running become inactive, anything else becomes active), and writes
the registry back unchanged when no server matches. -/
theorem toggleServer_frame (reg : MCPRegistry) (nm : String) :
    (toggleServer reg nm).Version = reg.Version
    ∧ (toggleServer reg nm).Timestamp = reg.Timestamp
    ∧ (toggleServer reg nm).Tools = reg.Tools
    ∧ (toggleServer reg nm).Servers.length = reg.Servers.length
    ∧ (∀ i, i ≠ reg.Servers.findIdx (fun srv => decide (srv.Name = nm)) →
        (toggleServer reg nm).Servers[i]? = reg.Servers[i]?)
    ∧ (∀ srv, reg.Servers[reg.Servers.findIdx (fun srv2 => decide (srv2.Name = nm))]? = some srv →
        (toggleServer reg nm).Servers[reg.Servers.findIdx (fun srv2 => decide (srv2.Name = nm))]? =
          some { srv with Status :=
            if srv.Status = "active" ∨ srv.Status = "production-ready" ∨ srv.Status = "running"
            then "inactive" else "active" })
    ∧ ((∀ srv ∈ reg.Servers, srv.Name ≠ nm) → toggleServer reg nm = reg) := by
  refine ⟨rfl, rfl, rfl, toggleServers_length nm reg.Servers, ?_, ?_, ?_⟩
  · intro i hi
    exact toggleServers_getElem_ne nm reg.Servers i hi
  · intro srv hsrv
    exact toggleServers_getElem_match nm reg.Servers srv hsrv
  · intro hnone
    show { reg with Servers := toggleServers nm reg.Servers } = reg
    rw [toggleServers_nomatch nm reg.Servers hnone]

/-- Witness for C10 at a concrete registry: toggling `crawl4ai-mcp`
(at index 1) leaves the server at index 0 untouched, and toggling an
absent name leaves the registry unchanged. -/
theorem toggleServer_frame_witness :
    (toggleServer regWit "crawl4ai-mcp").Servers[0]? = regWit.Servers[0]?
    ∧ toggleServer regWit "absent" = regWit :=
  ⟨(toggleServer_frame regWit "crawl4ai-mcp").2.2.2.2.1 0 (by decide),
   (toggleServer_frame regWit "absent").2.2.2.2.2.2 (by decide)⟩

end DevGen
